import Mathlib

/-
Shallow embedding of src/src/lib/util/dbuff.h (freeradius dbuff cursor).

Modelling decisions:
  * Pointers (`start`, `end`, `p`) are integers: an address in a flat byte
    address space.  The field `end` is spelled `endp` because `end` is a
    Lean keyword.
  * The backing memory is a total function from addresses to byte values.
  * `size_t` quantities (`inlen`, `_reserve`, `_max`, the freespace result)
    are `Nat`.  `fr_dbuff_freespace` computes the pointer difference
    `end - p` as a `size_t`; in every cursor state arising in this
    development `p ≤ end` holds (even in the out-of-window states produced
    by `FR_DBUFF_RESERVE` with an oversized reserve, where `p < start`),
    so `Int.toNat` of the difference is exact.
  * The `parent` pointer of the struct is modelled two ways, matching its
    two uses: (1) as a field `parent : Option Nat` holding the machine
    address of the parent struct (`none` encodes NULL), which is what the
    derivation macros store and what identity claims inspect; (2) for
    `fr_dbuff_memcpy_in`, whose recursion follows the parent chain, the
    chain is passed as a nonempty list, head = the dbuff the call receives,
    tail = its ancestors from `dbuff->parent` outward; an empty tail
    corresponds to `dbuff->parent == NULL`.
  * `(size_t)(_dbuff)` in `FR_DBUFF_RESERVE` is the address of the dbuff
    struct itself cast to `size_t`; it enters the model as the explicit
    argument `dbuffAddr`, which is also the address recorded in the
    `.parent` field of the derived struct.
  * `fr_assert(!dbuff->is_const)` is a diagnostic from outside this header
    (it does not alter control flow in release builds); the write is
    modelled after the assertion.  `memcpy` is the C library byte copy,
    modelled pointwise.
-/

namespace Dbuff

/-- A byte value; the cursor copies bytes verbatim and never inspects them. -/
abbrev Byte := Nat

/-- The flat address space holding the backing region. -/
abbrev Mem := Int → Byte

/-- The struct fr_dbuff_s: start, end and position pointers, the const
flag, and the parent back-pointer (modelled as the machine address of the
parent struct, `none` for NULL). -/
structure Fr_dbuff where
  start : Int
  endp : Int
  p : Int
  is_const : Bool
  parent : Option Nat
deriving DecidableEq, Repr

/-- The C library memcpy: copy `n` bytes from the source byte sequence to
addresses `dst, dst+1, ..., dst+n-1`. -/
def memcpy (dst : Int) (src : Nat → Byte) (n : Nat) (m : Mem) : Mem :=
  fun a => if dst ≤ a ∧ a < dst + (n : Int) then src (a - dst).toNat else m a

/-- The function _fr_dbuff_init: clamp `end` up to `start` if reversed, set
`p = start`.  A root cursor has a NULL parent. -/
def _fr_dbuff_init (start endv : Int) (is_const : Bool) : Fr_dbuff :=
  let endv := if endv < start then start else endv
  { start := start, endp := endv, p := start, is_const := is_const, parent := none }

/-- The function fr_dbuff_freespace: `end - p` as a size_t. -/
def fr_dbuff_freespace (d : Fr_dbuff) : Nat := (d.endp - d.p).toNat

/-- The function fr_dbuff_used: `p - start` as a size_t. -/
def fr_dbuff_used (d : Fr_dbuff) : Nat := (d.p - d.start).toNat

/-- The function fr_dbuff_len: `end - start` as a size_t. -/
def fr_dbuff_len (d : Fr_dbuff) : Nat := (d.endp - d.start).toNat

/-- The function fr_dbuff_start: unconditionally set `p = start` and return
the new `p`.  The source has no guard on the parent field. -/
def fr_dbuff_start (d : Fr_dbuff) : Fr_dbuff × Int :=
  ({ d with p := d.start }, d.start)

/-- The function fr_dbuff_end: unconditionally set `p = end` and return the
new `p`.  The source has no guard on the parent field. -/
def fr_dbuff_end (d : Fr_dbuff) : Fr_dbuff × Int :=
  ({ d with p := d.endp }, d.endp)

/-- The macro FR_DBUFF_RESERVE, applied to a dbuff struct that lives at
machine address `dbuffAddr`.  Field by field from the source:
  end = ((size_t)dbuff > reserve) and (dbuff.end - reserve >= dbuff.start)
          ? dbuff.end - reserve : dbuff.start;
  p   = ((size_t)dbuff > reserve) and (dbuff.end - reserve >= dbuff.p)
          ? dbuff.p : dbuff.end - reserve;
  parent = dbuff (the address of the argument struct). -/
def FR_DBUFF_RESERVE (dbuffAddr : Nat) (d : Fr_dbuff) (reserve : Nat) : Fr_dbuff :=
  { start := d.start,
    endp := if (dbuffAddr > reserve) ∧ (d.endp - (reserve : Int) ≥ d.start)
            then d.endp - (reserve : Int) else d.start,
    p := if (dbuffAddr > reserve) ∧ (d.endp - (reserve : Int) ≥ d.p)
         then d.p else d.endp - (reserve : Int),
    is_const := d.is_const,
    parent := some dbuffAddr }

/-- The macro FR_DBUFF_MAX: when the freespace exceeds `max`, derive a
reservation of `freespace - max` from the dbuff (at address `dbuffAddr`);
otherwise the expression evaluates to the dbuff itself, not a fresh child. -/
def FR_DBUFF_MAX (dbuffAddr : Nat) (d : Fr_dbuff) (max : Nat) : Fr_dbuff :=
  if fr_dbuff_freespace d > max
  then FR_DBUFF_RESERVE dbuffAddr d (fr_dbuff_freespace d - max)
  else d

/-- The macro FR_DBUFF_NO_ADVANCE: a compound-literal copy of the struct,
every field included (so the copy has the same `parent`).  The copy is a
fresh ephemeral struct; the original is never mutated through it. -/
def FR_DBUFF_NO_ADVANCE (d : Fr_dbuff) : Fr_dbuff := d

/-- The function fr_dbuff_memcpy_in over the parent chain of the dbuff it
receives (head = that dbuff, tail = its ancestors; empty tail = NULL
parent).  Returns the ssize_t result, the chain of structs after the call,
and the memory after the call.  Straight from the source:
  if (inlen > freespace) return -(inlen - freespace);
  memcpy(dbuff->p, in, inlen);  dbuff->p += inlen;
  return dbuff->parent ? fr_dbuff_memcpy_in(dbuff->parent, in, inlen) : inlen; -/
def fr_dbuff_memcpy_in : List Fr_dbuff → Mem → (Nat → Byte) → Nat → Int × List Fr_dbuff × Mem
  | [], m, _, _ => (0, [], m)
  | [d], m, src, inlen =>
      if inlen > fr_dbuff_freespace d then
        (-(((inlen - fr_dbuff_freespace d : Nat)) : Int), [d], m)
      else
        ((inlen : Int), [{ d with p := d.p + (inlen : Int) }], memcpy d.p src inlen m)
  | d :: q :: qs, m, src, inlen =>
      if inlen > fr_dbuff_freespace d then
        (-(((inlen - fr_dbuff_freespace d : Nat)) : Int), d :: q :: qs, m)
      else
        let res := fr_dbuff_memcpy_in (q :: qs) (memcpy d.p src inlen m) src inlen
        (res.1, { d with p := d.p + (inlen : Int) } :: res.2.1, res.2.2)

/-- Conversion of an Int to size_t, used where the C code stores a ssize_t
value into a variable of type size_t. -/
def size_t_of_int (z : Int) : Nat := (z % (2 ^ 64)).toNat

/-- Reading a size_t bit pattern back as a ssize_t. -/
def toSigned64 (n : Nat) : Int :=
  if n < 2 ^ 63 then (n : Int) else (n : Int) - 2 ^ 64

/-- The macro FR_DBUFF_MEMCPY_IN as it sits inside an enclosing encoder:
  size_t _slen;
  _slen = fr_dbuff_memcpy_in(_dbuff, _in, _inlen);
  if (_slen < 0) return _slen;
and then the encoder continues and eventually returns `restOfEncoder`.
The variable `_slen` is declared size_t, so the assignment converts the
ssize_t result to size_t and the comparison `_slen < 0` is carried out on
unsigned operands. -/
def FR_DBUFF_MEMCPY_IN_then (chain : List Fr_dbuff) (m : Mem) (src : Nat → Byte)
    (inlen : Nat) (restOfEncoder : Int) : Int :=
  let _slen : Nat := size_t_of_int (fr_dbuff_memcpy_in chain m src inlen).1
  if _slen < 0 then toSigned64 _slen else restOfEncoder

/-- The lock-step invariant of a parent chain (spec section 3, invariant 2,
and the note in section 4.1): every adjacent (child, parent) pair shares
the position pointer and the child window end does not pass the parent
window end.  Derivation establishes it and lock-step writes preserve it. -/
def chainInv : List Fr_dbuff → Bool
  | c :: q :: rest => (decide (c.p = q.p) && decide (c.endp ≤ q.endp)) && chainInv (q :: rest)
  | _ => true

/- Concrete fixtures used by witnesses and counterexamples. -/

/-- A root cursor over a 10-byte region at addresses 100..109. -/
def root10 : Fr_dbuff := _fr_dbuff_init 100 110 false

/-- A root cursor over a 3-byte region at addresses 100..102. -/
def root3 : Fr_dbuff := _fr_dbuff_init 100 103 false

/-- A reservation child of `root10` keeping 4 bytes back; the parent struct
sits at machine address 1000. -/
def child6 : Fr_dbuff := FR_DBUFF_RESERVE 1000 root10 4

/-- The state of `root10` after a successful 3-byte write (see
`root10_after3_reachable`). -/
def root10_after3 : Fr_dbuff := { root10 with p := 103 }

/-- A reservation child derived from `root10_after3`, whose parent struct
sits at machine address 1000: a derived cursor whose `p` is away from
`start`. -/
def derived8 : Fr_dbuff := FR_DBUFF_RESERVE 1000 root10_after3 4

/-- A region initially filled with 0xFF. -/
def m0 : Mem := fun _ => 255

/-- A source byte sequence 1, 2, 3, ... -/
def src0 : Nat → Byte := fun i => i + 1

/-- Sanity: `root10_after3` is the struct a 3-byte root write produces. -/
theorem root10_after3_reachable :
    (fr_dbuff_memcpy_in [root10] m0 src0 3).2.1 = [root10_after3] := by decide

/- Helper lemmas. -/

theorem memcpy_zero (dst : Int) (src : Nat → Byte) (m : Mem) :
    memcpy dst src 0 m = m := by
  funext a
  unfold memcpy
  rw [if_neg]
  push_cast
  omega

theorem memcpy_idem (dst : Int) (src : Nat → Byte) (n : Nat) (m : Mem) :
    memcpy dst src n (memcpy dst src n m) = memcpy dst src n m := by
  funext a
  unfold memcpy
  by_cases h : dst ≤ a ∧ a < dst + (n : Int) <;> simp [h]

/-- Under the adjacent lock-step facts, the parent has at least the
freespace of the child. -/
theorem freespace_mono (c q : Fr_dbuff) (hp : c.p = q.p) (he : c.endp ≤ q.endp) :
    fr_dbuff_freespace c ≤ fr_dbuff_freespace q := by
  unfold fr_dbuff_freespace
  rw [hp]
  exact Int.toNat_le_toNat (by omega)

/-- A successful write on a chain satisfying the lock-step invariant:
returns `inlen`, advances `p` on every struct of the chain by `inlen`, and
the memory changes exactly by one copy of `inlen` bytes at the position of
the deepest cursor (the re-copies at the ancestors hit the same addresses
with the same bytes). -/
theorem memcpy_in_ok : ∀ (rest : List Fr_dbuff) (d : Fr_dbuff) (m : Mem)
    (src : Nat → Byte) (inlen : Nat),
    chainInv (d :: rest) = true → inlen ≤ fr_dbuff_freespace d →
    fr_dbuff_memcpy_in (d :: rest) m src inlen =
      ((inlen : Int),
       (d :: rest).map (fun c => { c with p := c.p + (inlen : Int) }),
       memcpy d.p src inlen m)
  | [], d, m, src, inlen, _, hfit => by
      simp only [fr_dbuff_memcpy_in, List.map]
      rw [if_neg (Nat.not_lt.mpr hfit)]
  | q :: qs, d, m, src, inlen, hinv, hfit => by
      simp only [chainInv, Bool.and_eq_true, decide_eq_true_eq] at hinv
      obtain ⟨⟨hp, he⟩, hinv2⟩ := hinv
      have hfitq : inlen ≤ fr_dbuff_freespace q :=
        le_trans hfit (freespace_mono d q hp he)
      have ih := memcpy_in_ok qs q (memcpy d.p src inlen m) src inlen
        (by simpa [chainInv] using hinv2) hfitq
      simp only [fr_dbuff_memcpy_in]
      rw [if_neg (Nat.not_lt.mpr hfit), ih]
      simp only [List.map, hp, memcpy_idem]

/-- A zero-length write succeeds on any chain and changes nothing. -/
theorem memcpy_in_zero : ∀ (rest : List Fr_dbuff) (d : Fr_dbuff) (m : Mem)
    (src : Nat → Byte),
    fr_dbuff_memcpy_in (d :: rest) m src 0 = (0, d :: rest, m)
  | [], d, m, src => by
      simp only [fr_dbuff_memcpy_in]
      rw [if_neg (by omega)]
      simp [memcpy_zero]
  | q :: qs, d, m, src => by
      have ih := memcpy_in_zero qs q m src
      simp only [fr_dbuff_memcpy_in]
      rw [if_neg (by omega)]
      simp [memcpy_zero, ih]

/- Claim theorems. -/

/-- Claim C1: a byte-range write of `inlen` bytes with `inlen` greater than
the freespace of the cursor returns the negative value
`freespace - inlen`, modifies no byte of the backing region, and changes
the `p` of no cursor, neither of the cursor written nor of any ancestor. -/
theorem C1_shortfall_no_effect (d : Fr_dbuff) (rest : List Fr_dbuff) (m : Mem)
    (src : Nat → Byte) (inlen : Nat) (h : fr_dbuff_freespace d < inlen) :
    fr_dbuff_memcpy_in (d :: rest) m src inlen =
      ((fr_dbuff_freespace d : Int) - (inlen : Int), d :: rest, m) := by
  have hneg : -(((inlen - fr_dbuff_freespace d : Nat)) : Int)
      = (fr_dbuff_freespace d : Int) - (inlen : Int) := by omega
  cases rest with
  | nil =>
      simp only [fr_dbuff_memcpy_in]
      rw [if_pos h, hneg]
  | cons q qs =>
      simp only [fr_dbuff_memcpy_in]
      rw [if_pos h, hneg]

/-- Witness for C1: a 5-byte write into 3 bytes of freespace returns -2
and changes nothing. -/
theorem C1_shortfall_no_effect_witness :
    fr_dbuff_freespace root3 < 5 ∧
    fr_dbuff_memcpy_in [root3] m0 src0 5 =
      ((fr_dbuff_freespace root3 : Int) - ((5 : Nat) : Int), [root3], m0) :=
  ⟨by decide, C1_shortfall_no_effect root3 [] m0 src0 5 (by decide)⟩

/-- Claim C2: a byte-range write of `inlen ≤ freespace` bytes on a cursor
whose chain satisfies the lock-step invariant copies `inlen` bytes from
the source to the position of the cursor, advances the `p` of the cursor
and of every ancestor by exactly `inlen`, and returns `inlen`. -/
theorem C2_write_success (d : Fr_dbuff) (rest : List Fr_dbuff) (m : Mem)
    (src : Nat → Byte) (inlen : Nat)
    (hinv : chainInv (d :: rest) = true) (hfit : inlen ≤ fr_dbuff_freespace d) :
    (fr_dbuff_memcpy_in (d :: rest) m src inlen).1 = (inlen : Int) ∧
    (fr_dbuff_memcpy_in (d :: rest) m src inlen).2.2 = memcpy d.p src inlen m ∧
    (fr_dbuff_memcpy_in (d :: rest) m src inlen).2.1 =
      (d :: rest).map (fun c => { c with p := c.p + (inlen : Int) }) := by
  rw [memcpy_in_ok rest d m src inlen hinv hfit]
  exact ⟨rfl, rfl, rfl⟩

/-- Witness for C2: a 3-byte write through a reservation child of a root
cursor advances both and returns 3. -/
theorem C2_write_success_witness :
    chainInv [child6, root10] = true ∧ 3 ≤ fr_dbuff_freespace child6 ∧
    ((fr_dbuff_memcpy_in [child6, root10] m0 src0 3).1 = ((3 : Nat) : Int) ∧
     (fr_dbuff_memcpy_in [child6, root10] m0 src0 3).2.2 = memcpy child6.p src0 3 m0 ∧
     (fr_dbuff_memcpy_in [child6, root10] m0 src0 3).2.1 =
       [child6, root10].map (fun c => { c with p := c.p + ((3 : Nat) : Int) })) :=
  ⟨by decide, by decide,
   C2_write_success child6 [root10] m0 src0 3 (by decide) (by decide)⟩

/-- Claim C3, evaluated at a failing input: the reservation view with a
reserve (15) larger than the region length (10) produces a cursor whose
`p` lies strictly below its `start` already at construction, violating
start ≤ p ≤ end. -/
theorem C3_reserve_breaks_lower_bound :
    (FR_DBUFF_RESERVE 1000 root10 15).p < (FR_DBUFF_RESERVE 1000 root10 15).start := by
  decide

/-- Claim C4, evaluated at a failing input: for reserve 15 on a 10-byte
region at 100..109 the child end is clamped to start (100) but the child
`p` is set to parent.end - reserve = 95, below the child end and the child
start, so `p` is not the parent `p` clamped downward to the child end
(that clamp would give 100). -/
theorem C4_p_not_clamped_to_child_end :
    (FR_DBUFF_RESERVE 1000 root10 15).endp = 100 ∧
    (FR_DBUFF_RESERVE 1000 root10 15).start = 100 ∧
    (FR_DBUFF_RESERVE 1000 root10 15).p = 95 := by decide

/-- Claim C5, evaluated at a failing input: reserve 15 on a region of
length 10 yields a child with freespace 5 (= reserve - len), not 0. -/
theorem C5_overshoot_freespace_nonzero :
    fr_dbuff_len root10 = 10 ∧
    fr_dbuff_freespace (FR_DBUFF_RESERVE 1000 root10 15) = 5 := by decide

/-- Claim C6, evaluated at a failing input: the underlying write returns
-2 (negative), yet the encoder wrapping the call in FR_DBUFF_MEMCPY_IN
does not return that value: the variable holding the result is declared
size_t, the test for a negative value is always false on it, and the
encoder falls through to its own result (here 7). -/
theorem C6_macro_never_short_circuits :
    (fr_dbuff_memcpy_in [root3] m0 src0 5).1 = -2 ∧
    FR_DBUFF_MEMCPY_IN_then [root3] m0 src0 5 7 = 7 := by decide

/-- Claim C7 counterexample: for a cursor with freespace 10 and max 20
the maximum-length view returns the argument cursor itself; the parent
field of the result is `none`, not a pointer to the argument (which sits
at address 1000). -/
theorem C7_parent_counterexample :
    FR_DBUFF_MAX 1000 root10 20 = root10 ∧
    (FR_DBUFF_MAX 1000 root10 20).parent ≠ some 1000 := by decide

/-- Claim C7 as amended: for a cursor with start ≤ p ≤ end (and the
struct address above the computed reserve, as on any real machine), the
maximum-length view has freespace min(max, freespace); its parent field
points at the argument when freespace > max (a fresh child is built), and
otherwise the result is the argument cursor itself, parent unchanged. -/
theorem C7_max_view (dbuffAddr : Nat) (d : Fr_dbuff) (max : Nat)
    (hs : d.start ≤ d.p) (he : d.p ≤ d.endp)
    (haddr : fr_dbuff_freespace d - max < dbuffAddr) :
    fr_dbuff_freespace (FR_DBUFF_MAX dbuffAddr d max) = min max (fr_dbuff_freespace d) ∧
    (max < fr_dbuff_freespace d → (FR_DBUFF_MAX dbuffAddr d max).parent = some dbuffAddr) ∧
    (fr_dbuff_freespace d ≤ max → FR_DBUFF_MAX dbuffAddr d max = d) := by
  have hfs : ((fr_dbuff_freespace d : Nat) : Int) = d.endp - d.p := by
    unfold fr_dbuff_freespace
    omega
  by_cases hgt : fr_dbuff_freespace d > max
  · have hc1 : (dbuffAddr > fr_dbuff_freespace d - max) ∧
        (d.endp - ((fr_dbuff_freespace d - max : Nat) : Int) ≥ d.start) :=
      ⟨haddr, by omega⟩
    have hc2 : (dbuffAddr > fr_dbuff_freespace d - max) ∧
        (d.endp - ((fr_dbuff_freespace d - max : Nat) : Int) ≥ d.p) :=
      ⟨haddr, by omega⟩
    simp only [FR_DBUFF_MAX]
    rw [if_pos hgt]
    simp only [FR_DBUFF_RESERVE]
    rw [if_pos hc1, if_pos hc2]
    refine ⟨?_, fun _ => by trivial, fun hle => absurd hle (by omega)⟩
    simp only [fr_dbuff_freespace]
    omega
  · simp only [FR_DBUFF_MAX]
    rw [if_neg hgt]
    exact ⟨by omega, fun hlt => absurd hlt hgt, fun _ => rfl⟩

/-- Witness for the amended C7: root over 10 bytes, max 4: a fresh child
with freespace 4 whose parent field holds the address of the argument. -/
theorem C7_max_view_witness :
    root10.start ≤ root10.p ∧ root10.p ≤ root10.endp ∧
    fr_dbuff_freespace root10 - 4 < 1000 ∧
    (fr_dbuff_freespace (FR_DBUFF_MAX 1000 root10 4) = min 4 (fr_dbuff_freespace root10) ∧
     (4 < fr_dbuff_freespace root10 → (FR_DBUFF_MAX 1000 root10 4).parent = some 1000) ∧
     (fr_dbuff_freespace root10 ≤ 4 → FR_DBUFF_MAX 1000 root10 4 = root10)) :=
  ⟨by decide, by decide, by decide,
   C7_max_view 1000 root10 4 (by decide) (by decide) (by decide)⟩

/-- Claim C8, evaluated at a failing input: fr_dbuff_start on a derived
cursor (parent field = address 1000, p = 103) neither fails nor asserts;
it repositions p to start (100) and returns the new p; likewise
fr_dbuff_end repositions p to end (106). -/
theorem C8_seek_repositions_derived_cursor :
    derived8.parent = some 1000 ∧ derived8.p = 103 ∧
    (fr_dbuff_start derived8).1.p = 100 ∧ (fr_dbuff_start derived8).2 = 100 ∧
    (fr_dbuff_end derived8).1.p = 106 := by decide

/-- Claim C9: a zero-length write succeeds on every cursor, even one with
freespace 0: it returns 0 and leaves the cursor, every ancestor, and the
backing region unchanged. -/
theorem C9_zero_write (d : Fr_dbuff) (rest : List Fr_dbuff) (m : Mem)
    (src : Nat → Byte) :
    fr_dbuff_memcpy_in (d :: rest) m src 0 = (0, d :: rest, m) :=
  memcpy_in_zero rest d m src

/-- Claim C10: a successful write of inlen > 0 bytes through the
ephemeral copy FR_DBUFF_NO_ADVANCE(d) mutates the copy, not d (the
original struct is a distinct object left with its p intact, the copy
starting from the same p), yet — the copy inheriting the parent field of
d — the write still advances the p of the parent of d and of every
further ancestor by inlen. -/
theorem C10_no_advance_still_advances_ancestors (d : Fr_dbuff) (rest : List Fr_dbuff)
    (m : Mem) (src : Nat → Byte) (inlen : Nat)
    (hinv : chainInv (d :: rest) = true) (hfit : inlen ≤ fr_dbuff_freespace d)
    (_hpos : 0 < inlen) :
    (FR_DBUFF_NO_ADVANCE d).p = d.p ∧
    (fr_dbuff_memcpy_in (FR_DBUFF_NO_ADVANCE d :: rest) m src inlen).1 = (inlen : Int) ∧
    (fr_dbuff_memcpy_in (FR_DBUFF_NO_ADVANCE d :: rest) m src inlen).2.1.tail =
      rest.map (fun c => { c with p := c.p + (inlen : Int) }) := by
  simp only [FR_DBUFF_NO_ADVANCE]
  rw [memcpy_in_ok rest d m src inlen hinv hfit]
  refine ⟨?_, ?_, ?_⟩ <;> trivial

/-- Witness for C10: a 3-byte write through the no-advance copy of a
reservation child still advances the root by 3. -/
theorem C10_no_advance_witness :
    chainInv [child6, root10] = true ∧ 3 ≤ fr_dbuff_freespace child6 ∧ 0 < 3 ∧
    ((FR_DBUFF_NO_ADVANCE child6).p = child6.p ∧
     (fr_dbuff_memcpy_in (FR_DBUFF_NO_ADVANCE child6 :: [root10]) m0 src0 3).1 = ((3 : Nat) : Int) ∧
     (fr_dbuff_memcpy_in (FR_DBUFF_NO_ADVANCE child6 :: [root10]) m0 src0 3).2.1.tail =
       [root10].map (fun c => { c with p := c.p + ((3 : Nat) : Int) })) :=
  ⟨by decide, by decide, by decide,
   C10_no_advance_still_advances_ancestors child6 [root10] m0 src0 3
     (by decide) (by decide) (by decide)⟩

end Dbuff
